import Mathlib

/-!
Shallow embedding of the Agentic-Code-Reviewer core (src/src/agent.py,
src/src/repo_analyzer.py, src/src/config.py) and proofs about it.

Modelling conventions:
* Python strings are Lean `String` (a list of unicode scalar values); the
  byte length of the UTF-8 encoding is computed explicitly.
* Python `str.lower` / `str.upper` / `str.title` / `str.strip` are modelled by
  the ASCII case maps of Lean and an explicit ASCII-whitespace strip; every
  string these are applied to in the claims is ASCII.
* The text-generation backend (ChatOpenAI.ainvoke) is an opaque external
  collaborator per the specification; each call site is modelled as an
  `Except String String` value: `Except.error e` is a raised exception with
  message e, `Except.ok out` is the returned message content.
* Python dicts with string keys are association lists with unique keys;
  assignment d[k] = v replaces in place or appends (`dinsert`), and the
  dict literal / `**` unpacking semantics (later entries override earlier
  ones) is modelled explicitly where it matters (`CRUpdate.union`).
* The filesystem walk, archive download and extraction are external
  effects; they enter the model as explicit data (a list of walk entries,
  an attempt outcome per branch name), and the functions under test are
  translated from the source on top of that data.
-/

/-- ASCII whitespace recognised by the model of Python str.strip. -/
def pyIsSpace (c : Char) : Bool :=
  c = ' ' || c = '\t' || c = '\n' || c = '\r' || c = '\x0b' || c = '\x0c'

/-- Drop trailing characters satisfying pyIsSpace. -/
def dropTrail (l : List Char) : List Char :=
  (l.reverse.dropWhile pyIsSpace).reverse

/-- Model of Python str.strip (ASCII whitespace). -/
def pyStrip (l : List Char) : List Char :=
  dropTrail (l.dropWhile pyIsSpace)

/-- Model of Python str.strip on Lean strings. -/
def pyStripS (s : String) : String :=
  ⟨pyStrip s.data⟩

/-- Model of Python str.lower (ASCII case folding). -/
def pyLower (s : String) : String :=
  ⟨s.data.map Char.toLower⟩

/-- Model of Python str.upper (ASCII case folding). -/
def pyUpper (s : String) : String :=
  ⟨s.data.map Char.toUpper⟩

/-- Worker for pyTitle: the flag records whether the previous character was
not alphabetic, i.e. whether the next letter starts a word. -/
def pyTitleGo : Bool → List Char → List Char
  | _, [] => []
  | atStart, c :: cs =>
    if c.isAlpha then
      (if atStart then c.toUpper else c.toLower) :: pyTitleGo false cs
    else
      c :: pyTitleGo true cs

/-- Model of Python str.title (ASCII letters). -/
def pyTitle (s : String) : String :=
  ⟨pyTitleGo true s.data⟩

/-- Byte length of the UTF-8 encoding of a string: Python len(s.encode("utf-8")). -/
def pyByteLen (s : String) : Nat :=
  s.data.foldl (fun n c => n + c.utf8Size) 0

/-- Rendering of an optional string by a Python f-string: None prints as "None". -/
def pyShowOpt (o : Option String) : String :=
  match o with
  | none => "None"
  | some s => s

/-- Python `a or b` on optional strings: None and the empty string are falsy. -/
def pyOrStr (a b : Option String) : Option String :=
  match a with
  | none => b
  | some s => if s = "" then b else some s

/-- Truthiness of an optional string in Python: present and non-empty. -/
def truthyStr (a : Option String) : Bool :=
  match a with
  | none => false
  | some s => s ≠ ""

/-- Worker for pyReplace, structurally recursive on a fuel bound: scan left
to right, replacing non-overlapping occurrences of the non-empty pattern p
by r. Each step consumes at least one character and exactly one unit of
fuel, so with fuel at least the length of the text the fuel never runs out
and the function computes Python str.replace. -/
def pyReplaceF (p r : List Char) : Nat → List Char → List Char
  | _, [] => []
  | 0, s => s
  | fuel + 1, c :: cs =>
    if p ≠ [] ∧ p.isPrefixOf (c :: cs) = true then
      r ++ pyReplaceF p r fuel (List.drop p.length (c :: cs))
    else
      c :: pyReplaceF p r fuel cs

/-- Model of Python str.replace for a non-empty pattern p. -/
def pyReplace (p r s : List Char) : List Char :=
  pyReplaceF p r s.length s

/-- Occurrence test matching the recursion of pyReplace: true iff the
pattern p occurs as a contiguous segment (Python `p in s` for non-empty p). -/
def containsPat (p : List Char) : List Char → Bool
  | [] => false
  | c :: cs => p.isPrefixOf (c :: cs) || containsPat p cs

/-- Wrapper token "<s>" removed by _clean_llm_response. -/
def tagSOpen : List Char := "<s>".data

/-- Wrapper token "</s>" removed by _clean_llm_response. -/
def tagSClose : List Char := "</s>".data

/-- Wrapper token "[OUT]" removed by _clean_llm_response. -/
def tagOutOpen : List Char := "[OUT]".data

/-- Wrapper token "[/OUT]" removed by _clean_llm_response. -/
def tagOutClose : List Char := "[/OUT]".data

/-- Mangled backtick pattern "` ``" repaired by _clean_llm_response. -/
def bq1 : List Char := "` ``".data

/-- Mangled backtick pattern "`  ``" repaired by _clean_llm_response. -/
def bq2 : List Char := "`  ``".data

/-- Replacement "```" used for both backtick repairs. -/
def bq3 : List Char := "```".data

/-- Character-list core of CodeReviewAgent._clean_llm_response: the six
chained str.replace calls followed by str.strip, in source order. -/
def cleanCore (s : List Char) : List Char :=
  pyStrip (pyReplace bq2 bq3 (pyReplace bq1 bq3 (pyReplace tagOutClose []
    (pyReplace tagOutOpen [] (pyReplace tagSClose [] (pyReplace tagSOpen [] s))))))

/-- Model of CodeReviewAgent._clean_llm_response (agent.py lines 317-330):
empty input returns "", otherwise remove wrapper tags, repair backticks, strip. -/
def cleanLLMResponse (s : String) : String :=
  if s = "" then "" else ⟨cleanCore s.data⟩

/-- The six replacement rules of _clean_llm_response, in application order. -/
def cleanTokens : List (List Char) :=
  [tagSOpen, tagSClose, tagOutOpen, tagOutClose, bq1, bq2]

/-- Predicate: none of the six cleanup patterns occurs in the text. -/
def tokenFree (s : List Char) : Bool :=
  cleanTokens.all (fun p => !containsPat p s)

/-- An Issue is a Python dict from string keys to string values
(agent.py: issues : List of Dict-of-str-to-str). -/
abbrev Issue := List (String × String)

/-- Model of the AnalysisResult TypedDict (agent.py lines 17-21). -/
structure AnalysisResult where
  issues : List Issue
  summary : String
  passed : Bool
deriving DecidableEq, Repr

/-- Extension-to-language table of CodeReviewAgent._detect_language
(agent.py lines 381-387). -/
def languageMap : List (String × String) :=
  [("py", "python"), ("js", "javascript"), ("ts", "typescript"),
   ("java", "java"), ("go", "go")]

/-- Model of CodeReviewAgent._detect_language (agent.py lines 379-388):
lower-case the extension, then look it up in the table. -/
def detectLanguage (fileExtension : String) : Option String :=
  List.lookup (pyLower fileExtension) languageMap

/-- Model of CodeReviewAgent._parse_analysis_response (agent.py lines 390-413). -/
def parseAnalysisResponse (response : String) (analysisType : String) : AnalysisResult :=
  if pyStripS response = "" then
    { issues := []
      summary := "No " ++ analysisType ++ " issues detected"
      passed := true }
  else
    { issues := [[("title", pyTitle analysisType ++ " Analysis"),
                  ("description", pyStripS response),
                  ("severity", "medium")]]
      summary := analysisType ++ " analysis completed"
      passed := (pyStripS response).length == 0 }

/-- Model of CodeReviewAgent._analyze_code (agent.py lines 200-229) as a
function of the backend call outcome: on success parse the response, on a
raised exception return the synthetic error result; either way the value is
the analysis_results delta dict written under the analyzer name. -/
def analyzeCode (analysisType : String) (backend : Except String String) :
    List (String × AnalysisResult) :=
  match backend with
  | Except.ok response => [(analysisType, parseAnalysisResponse response analysisType)]
  | Except.error e =>
      [(analysisType,
        { issues := [[("error", e), ("severity", "high")]]
          summary := analysisType ++ " analysis failed"
          passed := false })]

/-- Analyzer names, in the scheduling order of _run_analyses (agent.py 234-239). -/
def analyzerNames : List String := ["security", "maintainability", "style"]

/-- Per-run environment: the enabled flag per analyzer
(config.analyses[name].enabled), the outcome of each analyzer backend call,
and the outcome of the synthesis backend call, for one pipeline run. -/
structure PipelineEnv where
  enabled : String → Bool
  backend : String → Except String String
  synth : Except String String

/-- The value stored under an analyzer key by analyzeCode. -/
def analyzerResult (env : PipelineEnv) (a : String) : AnalysisResult :=
  match env.backend a with
  | Except.ok response => parseAnalysisResponse response a
  | Except.error e =>
      { issues := [[("error", e), ("severity", "high")]]
        summary := a ++ " analysis failed"
        passed := false }

/-- The list of per-analyzer partial result dicts gathered by _run_analyses
(agent.py 233-241): one delta per enabled analyzer, in scheduling order. -/
def gatheredParts (env : PipelineEnv) : List (List (String × AnalysisResult)) :=
  (analyzerNames.filter env.enabled).map (fun a => analyzeCode a (env.backend a))

/-- Python dict assignment d[k] = v on an association list: replace in
place if the key is present, else append. -/
def dinsert (m : List (String × AnalysisResult)) (k : String) (v : AnalysisResult) :
    List (String × AnalysisResult) :=
  if m.any (fun q => q.1 == k) then
    m.map (fun q => if q.1 == k then (k, v) else q)
  else
    m ++ [(k, v)]

/-- Fold of dinsert over a list of key-value pairs, starting from m. -/
def dfold (m : List (String × AnalysisResult)) (ps : List (String × AnalysisResult)) :
    List (String × AnalysisResult) :=
  ps.foldl (fun acc kv => dinsert acc kv.1 kv.2) m

/-- Combination loop of _run_analyses (agent.py 243-246): for each partial
dict, insert each of its entries into the accumulator. -/
def combineParts (parts : List (List (String × AnalysisResult))) :
    List (String × AnalysisResult) :=
  dfold [] parts.flatten

/-- Model of CodeReviewAgent._run_analyses (agent.py 231-248): gather the
enabled analyzer deltas and combine them into one dict. -/
def runAnalyses (env : PipelineEnv) : List (String × AnalysisResult) :=
  combineParts (gatheredParts env)

/-- Metadata written by a successful ingest (agent.py 106-110). The source
stores file_size_mb as a float (bytes divided by 1048576); the model keeps
the exact byte count instead of the floating-point quotient. -/
structure IngestMeta where
  file_extension : String
  code_length : Nat
  file_size_bytes : Nat
deriving DecidableEq, Repr

/-- Model of the CodeReviewState TypedDict (agent.py 24-33). All keys are
present in every run because review_code (agent.py 430-438) initialises all
of them; metadata is the empty dict (none) until ingest fills it. -/
structure CRState where
  code : String
  file_extension : String
  language : String
  analysis_results : List (String × AnalysisResult)
  feedback : String
  error : Option String
  metadata : Option IngestMeta
deriving DecidableEq, Repr

/-- A node return value: a Python dict holding a subset of the state keys.
A field equal to none is an absent key; `error = some v` is the key
"error" present with value v (itself optional, since Python stores None). -/
structure CRUpdate where
  code : Option String := none
  file_extension : Option String := none
  language : Option String := none
  analysis_results : Option (List (String × AnalysisResult)) := none
  feedback : Option String := none
  error : Option (Option String) := none
  metadata : Option (Option IngestMeta) := none

/-- Choice of the later-written key in a Python dict literal: the right
operand wins when present. -/
def pickKey {α : Type} (a b : Option α) : Option α :=
  match b with
  | some v => some v
  | none => a

/-- Dict union as performed by a Python dict literal: entries of b are
written after entries of a, so the keys of b override those of a. -/
def CRUpdate.union (a b : CRUpdate) : CRUpdate where
  code := pickKey a.code b.code
  file_extension := pickKey a.file_extension b.file_extension
  language := pickKey a.language b.language
  analysis_results := pickKey a.analysis_results b.analysis_results
  feedback := pickKey a.feedback b.feedback
  error := pickKey a.error b.error
  metadata := pickKey a.metadata b.metadata

/-- The dict holding every key of the state, as produced by `**state`. -/
def CRState.toUpdate (s : CRState) : CRUpdate where
  code := some s.code
  file_extension := some s.file_extension
  language := some s.language
  analysis_results := some s.analysis_results
  feedback := some s.feedback
  error := some s.error
  metadata := some s.metadata

/-- Python dict-or (operator.or_): entries of the update are written over
the existing dict, each by dict assignment. -/
def dictOr (old upd : List (String × AnalysisResult)) : List (String × AnalysisResult) :=
  dfold old upd

/-- Application of a node return value to the graph state. Every channel of
CodeReviewState is a last-value channel except analysis_results, which is
annotated with operator.or_ (agent.py line 30). -/
def applyUpdate (s : CRState) (u : CRUpdate) : CRState where
  code := u.code.getD s.code
  file_extension := u.file_extension.getD s.file_extension
  language := u.language.getD s.language
  analysis_results :=
    match u.analysis_results with
    | none => s.analysis_results
    | some d => dictOr s.analysis_results d
  feedback := u.feedback.getD s.feedback
  error := u.error.getD s.error
  metadata := u.metadata.getD s.metadata

/-- Singleton update dict containing only the key "error". -/
def errUpdate (msg : String) : CRUpdate := { error := some (some msg) }

/-- Validation outcome of _ingest_code (agent.py 85-100): the error message
of the return branch taken, or none when all three checks pass. This is the
message placed in the first slot of the returned dict literal; whether it
survives the literal is settled separately (see ingestCode). -/
def ingestValidation (maxFileSizeMB : Nat) (code fileExtension : String) : Option String :=
  if code = "" then
    some "No code provided"
  else
    match detectLanguage (pyLower fileExtension) with
    | none => some ("Unsupported file type: " ++ pyLower fileExtension)
    | some _ =>
      if pyByteLen code > maxFileSizeMB * 1024 * 1024 then
        some ("File size exceeds the maximum limit of " ++ toString maxFileSizeMB ++ "MB")
      else
        none

/-- Model of CodeReviewAgent._ingest_code (agent.py 83-111). Each failure
branch returns the Python dict literal with the error entry first and
`**state` after it, so the keys of the state override the error entry
(CRUpdate.union with the full state on the right). The success branch
returns only language, an empty analysis_results and the metadata. -/
def ingestCode (maxFileSizeMB : Nat) (s : CRState) : CRUpdate :=
  if s.code = "" then
    CRUpdate.union (errUpdate "No code provided") s.toUpdate
  else
    match detectLanguage (pyLower s.file_extension) with
    | none =>
        CRUpdate.union (errUpdate ("Unsupported file type: " ++ pyLower s.file_extension))
          s.toUpdate
    | some language =>
      if pyByteLen s.code > maxFileSizeMB * 1024 * 1024 then
        CRUpdate.union
          (errUpdate ("File size exceeds the maximum limit of " ++ toString maxFileSizeMB ++ "MB"))
          s.toUpdate
      else
        { language := some language
          analysis_results := some []
          metadata := some (some
            { file_extension := pyLower s.file_extension
              code_length := s.code.length
              file_size_bytes := pyByteLen s.code }) }

/-- Model of the conditional edge _route_from_ingest (agent.py 63-64):
"error" iff state.get("error") is truthy. -/
def routeFromIngest (s : CRState) : String :=
  if truthyStr s.error then "error" else "ok"

/-- Model of CodeReviewAgent._handle_error (agent.py 371-377). The state
always carries the key "error", so state.get falls back to its default only
in the model of a missing key, which cannot occur here; a present None
renders as "None". The "status" entry written by the source is not a
channel of CodeReviewState, so it produces no state update. -/
def handleErrorUpdate (s : CRState) : CRUpdate :=
  { feedback := some ("Error: " ++ pyShowOpt s.error) }

/-- Severity icon table of _fallback_synthesis (agent.py line 355). -/
def severityIcon (sev : String) : String :=
  (List.lookup sev [("HIGH", "🔴"), ("MEDIUM", "🟠"), ("LOW", "🔵")]).getD "⚪"

/-- First truthy value of a chain of Python `or` over optional strings,
with a final default (issue.get(..) or issue.get(..) or default). -/
def pyOrChain (a b : Option String) (d : String) : String :=
  match pyOrStr a (pyOrStr b (some d)) with
  | some s => s
  | none => d

/-- Rendering of one issue inside _fallback_synthesis (agent.py 350-367). -/
def renderIssue (category : String) (idx : Nat) (issue : Issue) : List String :=
  let title := (List.lookup "title" issue).getD (pyTitle category ++ " Issue " ++ toString idx)
  let desc := pyOrChain (List.lookup "description" issue) (List.lookup "error" issue)
    "No description available"
  let sev := pyUpper ((List.lookup "severity" issue).getD "medium")
  let cleaned := cleanLLMResponse desc
  ["\n### " ++ severityIcon sev ++ " " ++ title ++ " [" ++ sev ++ "]\n", cleaned ++ "\n"]
    ++ (match List.lookup "code" issue with
        | some c => ["\n**Problematic code:**\n```python\n" ++ c ++ "\n```\n"]
        | none => [])
    ++ (match List.lookup "suggestion" issue with
        | some c => ["\n**Suggested fix:**\n```python\n" ++ c ++ "\n```\n"]
        | none => [])

/-- Rendering of the issues of one category, numbering from 1 (agent.py 350). -/
def renderIssues (category : String) : Nat → List Issue → List String
  | _, [] => []
  | idx, issue :: rest => renderIssue category idx issue ++ renderIssues category (idx + 1) rest

/-- Per-category block of _fallback_synthesis (agent.py 342-367). -/
def renderCategory (category : String) (result : AnalysisResult) : List String :=
  ("\n## " ++ pyTitle category ++ " Analysis\n") ::
    (if result.issues = [] then
      ["✅ **No issues found in this category.**\n"]
    else
      renderIssues category 1 result.issues)

/-- Model of CodeReviewAgent._fallback_synthesis (agent.py 332-369). -/
def fallbackSynthesis (analysisResults : List (String × AnalysisResult)) : String :=
  if analysisResults = [] then
    "## Code Review Summary\n\nNo analysis results available. Please ensure the code was analyzed properly."
  else
    String.intercalate "\n"
      ("# 📋 Code Review Summary\n" ::
        (analysisResults.map (fun kv => renderCategory kv.1 kv.2)).flatten)

/-- Model of CodeReviewAgent._synthesize_feedback (agent.py 250-315) as a
function of the synthesis backend outcome: empty results short-circuit;
a raised call or blank cleaned content falls back to fallbackSynthesis.
The "status" entry written by the source is not a channel of
CodeReviewState, so the node only updates feedback. -/
def synthesizeFeedback (synth : Except String String)
    (analysisResults : List (String × AnalysisResult)) : String :=
  if analysisResults = [] then
    "No analysis results to synthesize"
  else
    match synth with
    | Except.error _ => fallbackSynthesis analysisResults
    | Except.ok content =>
      let cleaned := cleanLLMResponse content
      if cleaned = "" ∨ pyStripS cleaned = "" then
        fallbackSynthesis analysisResults
      else
        cleaned

/-- Outcome of one pipeline invocation through review_code: the final graph
state, whether the run_analyses node executed, and the status reported by
review_code (agent.py 440-450), which is "success" whenever the workflow
returns, since the graph state has no "status" channel that could override
the literal written first in the returned dict. -/
structure PipelineRun where
  final : CRState
  ranAnalyses : Bool
  status : String
deriving Repr

/-- Initial CodeReviewState built by review_code (agent.py 430-438). -/
def initState (code fileExtension : String) : CRState where
  code := code
  file_extension := fileExtension
  language := ""
  analysis_results := []
  feedback := ""
  error := none
  metadata := none

/-- Model of one run of the compiled workflow through review_code
(agent.py 49-81, 415-450): ingest, conditional routing, then either
handle_error, or run_analyses followed by synthesize_feedback. -/
def runPipeline (env : PipelineEnv) (maxFileSizeMB : Nat) (code fileExtension : String) :
    PipelineRun :=
  let s0 := initState code fileExtension
  let s1 := applyUpdate s0 (ingestCode maxFileSizeMB s0)
  if routeFromIngest s1 = "error" then
    { final := applyUpdate s1 (handleErrorUpdate s1), ranAnalyses := false, status := "success" }
  else
    let s2 := applyUpdate s1 { analysis_results := some (runAnalyses env) }
    let s3 := applyUpdate s2
      { feedback := some (synthesizeFeedback env.synth s2.analysis_results) }
    { final := s3, ranAnalyses := true, status := "success" }

/-- Outcome of one codeload download attempt (urlopen inside
_download_repo_zip): a 200 response with a body, a non-200 response that
does not raise, or a raised exception with message e. -/
inductive AttemptOutcome where
  | ok (body : String)
  | non200
  | raises (e : String)
deriving DecidableEq

/-- Branch candidate list of _download_repo_zip (repo_analyzer.py 47-53):
the preferred branch if provided, then "main" and "master", without
duplicates, in that order. -/
def branchCandidates (preferredBranch : Option String) : List String :=
  let base := match preferredBranch with
    | some b => [b]
    | none => []
  ["main", "master"].foldl (fun acc br => if br ∈ acc then acc else acc ++ [br]) base

/-- Aggregated failure message of _download_repo_zip (repo_analyzer.py 65). -/
def downloadFailMsg (owner repo : String) (lastErr : Option String) : String :=
  "Failed to download repository zip for " ++ owner ++ "/" ++ repo ++
    ". Last error: " ++ pyShowOpt lastErr

/-- Attempt loop of _download_repo_zip (repo_analyzer.py 54-65): return the
first 200 body; remember the message of each raised attempt in last_err; a
non-200 non-raising response is skipped without touching last_err; when the
candidates are exhausted, raise the aggregated ValueError. -/
def downloadLoop (attempt : String → AttemptOutcome) (owner repo : String) :
    List String → Option String → Except String String
  | [], lastErr => Except.error (downloadFailMsg owner repo lastErr)
  | br :: rest, lastErr =>
    match attempt br with
    | AttemptOutcome.ok body => Except.ok body
    | AttemptOutcome.non200 => downloadLoop attempt owner repo rest lastErr
    | AttemptOutcome.raises e => downloadLoop attempt owner repo rest (some e)

/-- Model of _download_repo_zip (repo_analyzer.py 43-65). -/
def downloadRepoZip (attempt : String → AttemptOutcome) (owner repo : String)
    (preferredBranch : Option String) : Except String String :=
  downloadLoop attempt owner repo (branchCandidates preferredBranch) none

/-- One selected file as the batch loop sees it: its path relative to the
extraction root, the outcome of reading its content (open/read or the
notebook extraction, repo_analyzer.py 182-188; Except.error is a raised
exception), and the outcome of the per-file pipeline call
asyncio.run(agent.review_code(code, ext)) as a function of the content
(Except.error is a raised call). The payload type of a returned pipeline
value is a parameter, since the batch loop only stores it. -/
structure BatchFile (α : Type) where
  path : String
  read : Except String String
  pipeline : String → Except String α

/-- Model of one FileResult dict appended by analyze_repository
(repo_analyzer.py 190-218). -/
structure FileResult (α : Type) where
  path : String
  status : String
  reason : Option String := none
  error : Option String := none
  result : Option α := none
deriving DecidableEq

/-- Skip reason for an oversize file (repo_analyzer.py 202). -/
def oversizeReason (maxFileSizeMB : Nat) : String :=
  "file exceeds size limit " ++ toString maxFileSizeMB ++ "MB"

/-- Body of the per-file loop of analyze_repository (repo_analyzer.py
179-218): a raised read is captured as an error result; blank content and
oversize content are skipped with a reason; otherwise the pipeline call
either returns (reviewed) or raises (error). -/
def processFile {α : Type} (maxFileSizeMB : Nat) (f : BatchFile α) : FileResult α :=
  match f.read with
  | Except.error e => { path := f.path, status := "error", error := some e }
  | Except.ok code =>
    if pyStripS code = "" then
      { path := f.path, status := "skipped", reason := some "empty or unreadable file" }
    else if pyByteLen code > maxFileSizeMB * 1024 * 1024 then
      { path := f.path, status := "skipped", reason := some (oversizeReason maxFileSizeMB) }
    else
      match f.pipeline code with
      | Except.error e => { path := f.path, status := "error", error := some e }
      | Except.ok r => { path := f.path, status := "reviewed", result := some r }

/-- The whole per-file loop: one FileResult per selected file, in order.
The Python loop appends exactly one dict per iteration and every iteration
body is wrapped in try/except, so no file can abort the loop. -/
def batchResults {α : Type} (maxFileSizeMB : Nat) (files : List (BatchFile α)) :
    List (FileResult α) :=
  files.map (processFile maxFileSizeMB)

/-- files_analyzed (repo_analyzer.py 227): the number of results whose
status is "reviewed". -/
def countReviewed {α : Type} (results : List (FileResult α)) : Nat :=
  (results.filter (fun r => r.status == "reviewed")).length

/-- One file in os.walk order under the effective root: its splitext
extension (with the leading dot, original case) and its batch behaviour. -/
structure WalkEntry (α : Type) where
  ext : String
  file : BatchFile α

/-- Eligibility test of _select_files (repo_analyzer.py 142-143): the
lower-cased extension is in the lower-cased allow-list. -/
def extEligible {α : Type} (includeExts : List String) (w : WalkEntry α) : Bool :=
  (includeExts.map pyLower).contains (pyLower w.ext)

/-- Accumulator loop of _select_files (repo_analyzer.py 138-147): append
each eligible file, returning as soon as the selection length reaches
max_files; note the cap test runs after the append. -/
def selectGo {α : Type} (includeExts : List String) (maxFiles : Nat) :
    List (WalkEntry α) → List (WalkEntry α) → List (WalkEntry α)
  | [], selected => selected
  | w :: rest, selected =>
    if extEligible includeExts w then
      let selected' := selected ++ [w]
      if maxFiles ≤ selected'.length then selected'
      else selectGo includeExts maxFiles rest selected'
    else
      selectGo includeExts maxFiles rest selected

/-- Model of _select_files (repo_analyzer.py 137-147) over the walk order. -/
def selectFiles {α : Type} (walk : List (WalkEntry α)) (includeExts : List String)
    (maxFiles : Nat) : List (WalkEntry α) :=
  selectGo includeExts maxFiles walk []

/-- Model of the RepositoryAnalysis dict returned by analyze_repository
(repo_analyzer.py 220-230). The structure summary is omitted: no claim
touches it. -/
structure RepoAnalysis (α : Type) where
  status : String
  repository : String
  branch : String
  subdirectory : String
  files_analyzed : Nat
  files_considered : Nat
  results : List (FileResult α)
deriving DecidableEq

/-- External effects of one batch call: the download attempt outcome per
branch name, whether the requested subdirectory exists in the archive, and
the walk of the effective root in os.walk order. -/
structure RepoEnv (α : Type) where
  attempt : String → AttemptOutcome
  subdirExists : Bool
  walk : List (WalkEntry α)

/-- Default allow-list: getattr(config, "repo_allowed_extensions", ...) --
the Settings class defines no such field, so the getattr default applies
(repo_analyzer.py 154). -/
def defaultIncludeExts : List String := [".py", ".ipynb"]

/-- Effective allow-list (repo_analyzer.py 154): `include_extensions or
default`, where None and the empty list are falsy. -/
def effectiveIncludeExts (includeExtensions : Option (List String)) : List String :=
  match includeExtensions with
  | none => defaultIncludeExts
  | some l => if l = [] then defaultIncludeExts else l

/-- Effective cap (repo_analyzer.py 155): `max_files or 20`, where None and
0 are falsy; the Settings class defines no max_files_per_repo field, so the
getattr default 20 applies. -/
def effectiveMaxFiles (maxFiles : Option Nat) : Nat :=
  match maxFiles with
  | none => 20
  | some 0 => 20
  | some k => k

/-- ASCII apostrophe, used by the subdirectory error message. -/
def aposChar : String := String.singleton (Char.ofNat 39)

/-- Success payload of analyze_repository (repo_analyzer.py 170-230):
select files from the walk, run the per-file loop, and build the returned
RepositoryAnalysis dict, including the branch-or-"(auto)" and
subdir-or-"" renderings of lines 223-224. -/
def assembleAnalysis {α : Type} (env : RepoEnv α) (owner repo : String)
    (branch subdir : Option String) (includeExtensions : Option (List String))
    (maxFiles : Option Nat) (maxFileSizeMB : Nat) : RepoAnalysis α :=
  { status := "success"
    repository := owner ++ "/" ++ repo
    branch := match branch with
      | some b => if b = "" then "(auto)" else b
      | none => "(auto)"
    subdirectory := match subdir with
      | some d => if d = "" then "" else d
      | none => ""
    files_analyzed := countReviewed (batchResults maxFileSizeMB
      ((selectFiles env.walk (effectiveIncludeExts includeExtensions)
        (effectiveMaxFiles maxFiles)).map WalkEntry.file))
    files_considered := (selectFiles env.walk (effectiveIncludeExts includeExtensions)
      (effectiveMaxFiles maxFiles)).length
    results := batchResults maxFileSizeMB
      ((selectFiles env.walk (effectiveIncludeExts includeExtensions)
        (effectiveMaxFiles maxFiles)).map WalkEntry.file) }

/-- Control flow of analyze_repository (repo_analyzer.py 150-230) for an
already parsed locator: resolve the effective branch and subdirectory,
download with branch fallback, fail when a requested subdirectory is
missing, otherwise assemble the RepositoryAnalysis from the walk.
Except.error is an exception escaping the call. -/
def analyzeRepository {α : Type} (env : RepoEnv α) (owner repo : String)
    (urlBranch urlSubpath : Option String)
    (includeExtensions : Option (List String)) (maxFiles : Option Nat)
    (overrideBranch overrideSubdir : Option String) (maxFileSizeMB : Nat) :
    Except String (RepoAnalysis α) :=
  match downloadRepoZip env.attempt owner repo (pyOrStr overrideBranch urlBranch) with
  | Except.error e => Except.error e
  | Except.ok _ =>
    if truthyStr (pyOrStr overrideSubdir urlSubpath) ∧ ¬ env.subdirExists then
      Except.error ("Subdirectory " ++ aposChar ++
        pyShowOpt (pyOrStr overrideSubdir urlSubpath) ++ aposChar ++
        " not found in the repository archive")
    else
      Except.ok (assembleAnalysis env owner repo (pyOrStr overrideBranch urlBranch)
        (pyOrStr overrideSubdir urlSubpath) includeExtensions maxFiles maxFileSizeMB)

/-- Every analyzer delta is the singleton dict under its own name. -/
theorem analyzeCode_pair (env : PipelineEnv) (a : String) :
    analyzeCode a (env.backend a) = [(a, analyzerResult env a)] := by
  unfold analyzeCode analyzerResult
  cases env.backend a <;> rfl

/-- Dict assignment with a fresh key appends. -/
theorem dinsert_fresh (m : List (String × AnalysisResult)) (k : String) (v : AnalysisResult)
    (h : k ∉ m.map Prod.fst) : dinsert m k v = m ++ [(k, v)] := by
  unfold dinsert
  rw [if_neg]
  simp only [List.any_eq_true, beq_iff_eq, not_exists]
  intro q hq
  exact h (hq.2 ▸ List.mem_map_of_mem Prod.fst hq.1)

/-- Folding dict assignments of pairwise-fresh keys appends them in order. -/
theorem dfold_fresh :
    ∀ (ps m : List (String × AnalysisResult)), ((m ++ ps).map Prod.fst).Nodup →
      dfold m ps = m ++ ps := by
  intro ps
  induction ps with
  | nil => intro m _; simp [dfold]
  | cons p ps ih =>
    intro m h
    have hfresh : p.1 ∉ m.map Prod.fst := by
      rw [List.map_append, List.nodup_append] at h
      exact fun hc => h.2.2 hc (by simp)
    have hstep : dfold m (p :: ps) = dfold (m ++ [p]) ps := by
      simp [dfold, List.foldl, dinsert_fresh m p.1 p.2 hfresh]
    rw [hstep, ih (m ++ [p]) (by simpa using h)]
    simp

/-- With globally unique keys, the combination loop of _run_analyses is
just the concatenation of the partial dicts. -/
theorem combineParts_eq_flatten (l : List (List (String × AnalysisResult)))
    (h : (l.flatten.map Prod.fst).Nodup) : combineParts l = l.flatten := by
  unfold combineParts
  rw [dfold_fresh l.flatten [] (by simpa using h)]
  simp

/-- Association-list lookup is invariant under permutation when the keys
are unique. -/
theorem lookup_perm {l₁ l₂ : List (String × AnalysisResult)} (h : l₁.Perm l₂)
    (hn : (l₁.map Prod.fst).Nodup) (k : String) :
    List.lookup k l₁ = List.lookup k l₂ := by
  induction h with
  | nil => rfl
  | cons x h ih =>
    obtain ⟨a, b⟩ := x
    simp only [List.map_cons] at hn
    have hn' := (List.nodup_cons.mp hn).2
    cases hka : k == a <;> simp [List.lookup, hka, ih hn']
  | swap x y l =>
    obtain ⟨a, b⟩ := x
    obtain ⟨c, d⟩ := y
    simp only [List.map_cons] at hn
    have hca : c ≠ a := by
      have h1 := (List.nodup_cons.mp hn).1
      simp only [List.mem_cons, not_or] at h1
      exact h1.1
    cases hkc : k == c <;> cases hka : k == a <;> simp [List.lookup, hkc, hka]
    exact absurd ((beq_iff_eq.mp hkc).symm.trans (beq_iff_eq.mp hka)) hca
  | trans h₁ h₂ ih₁ ih₂ =>
    have hn₂ := ((h₁.map Prod.fst).nodup_iff).mp hn
    exact (ih₁ hn).trans (ih₂ hn₂)

/-- Flatten of a map producing singletons is the map of their contents. -/
theorem flatten_singleton_map {α β : Type} (f : α → List β) (g : α → β)
    (hfg : ∀ a, f a = [g a]) : ∀ la : List α, (la.map f).flatten = la.map g := by
  intro la
  induction la with
  | nil => rfl
  | cons a as ih => simp [hfg, ih]

/-- The flattened gathered deltas are exactly one keyed pair per enabled
analyzer, in scheduling order. -/
theorem flatten_gathered (env : PipelineEnv) :
    (gatheredParts env).flatten =
      (analyzerNames.filter env.enabled).map (fun a => (a, analyzerResult env a)) := by
  unfold gatheredParts
  exact flatten_singleton_map _ _ (analyzeCode_pair env) _

/-- The keys of the gathered deltas are the enabled analyzer names. -/
theorem gathered_keys (env : PipelineEnv) :
    (gatheredParts env).flatten.map Prod.fst = analyzerNames.filter env.enabled := by
  rw [flatten_gathered]
  simp [List.map_map, Function.comp_def]

/-- The keys of the gathered deltas are pairwise distinct. -/
theorem gathered_keys_nodup (env : PipelineEnv) :
    ((gatheredParts env).flatten.map Prod.fst).Nodup := by
  rw [gathered_keys]
  exact List.Nodup.filter env.enabled (by decide)

/-- Lookup of a present key in a keyed map of pairs. -/
theorem lookup_pairs_mem {β : Type} (f : String → β) :
    ∀ (la : List String) (a : String), a ∈ la →
      List.lookup a (la.map fun b => (b, f b)) = some (f a) := by
  intro la
  induction la with
  | nil => intro a ha; cases ha
  | cons b bs ih =>
    intro a ha
    cases hab : a == b
    · have : a ∈ bs := by
        cases List.mem_cons.mp ha with
        | inl hh => exact absurd hh (by simpa using hab)
        | inr hh => exact hh
      simp [List.lookup, hab, ih a this]
    · have : a = b := beq_iff_eq.mp hab
      simp [List.lookup, hab, this]

/-- Lookup of an absent key in a keyed map of pairs. -/
theorem lookup_pairs_not_mem {β : Type} (f : String → β) :
    ∀ (la : List String) (a : String), a ∉ la →
      List.lookup a (la.map fun b => (b, f b)) = none := by
  intro la
  induction la with
  | nil => intro a _; rfl
  | cons b bs ih =>
    intro a ha
    have hab : (a == b) = false := by
      simp only [List.mem_cons, not_or] at ha
      simpa using ha.1
    simp [List.lookup, hab, ih a (by simp only [List.mem_cons, not_or] at ha; exact ha.2)]

/-- Lookups away from a distinguished key agree when the value functions
agree away from that key. -/
theorem lookup_pairs_congr {β : Type} (f g : String → β) (x : String)
    (hfg : ∀ b, b ≠ x → f b = g b) :
    ∀ (la : List String) (k : String), k ≠ x →
      List.lookup k (la.map fun b => (b, f b)) = List.lookup k (la.map fun b => (b, g b)) := by
  intro la
  induction la with
  | nil => intro k _; rfl
  | cons b bs ih =>
    intro k hk
    cases hkb : k == b
    · simp [List.lookup, hkb, ih k hk]
    · have hkb' : k = b := beq_iff_eq.mp hkb
      simp [List.lookup, hkb, hfg b (hkb' ▸ hk)]

/-- C2: for every set of enabled analyzers and every completion order
(permutation) of their result deltas, the merged analysis_results mapping
is the same: the combined lookup function is independent of the order in
which the per-analyzer deltas are combined, each enabled analyzer
contributes exactly the entry under its own name, a disabled or unknown
name has no entry, and the keys are pairwise distinct. -/
theorem merge_independent_of_completion_order (env : PipelineEnv)
    (l : List (List (String × AnalysisResult))) (h : l.Perm (gatheredParts env)) :
    (∀ k, List.lookup k (combineParts l) = List.lookup k (runAnalyses env))
    ∧ (∀ a ∈ analyzerNames, env.enabled a = true →
        List.lookup a (runAnalyses env) = some (analyzerResult env a))
    ∧ (∀ a ∈ analyzerNames, env.enabled a = false →
        List.lookup a (runAnalyses env) = none)
    ∧ (∀ k, k ∉ analyzerNames → List.lookup k (runAnalyses env) = none)
    ∧ ((gatheredParts env).flatten.map Prod.fst).Nodup := by
  have hgn := gathered_keys_nodup env
  have hfl : l.flatten.Perm (gatheredParts env).flatten := h.flatten
  have hln : (l.flatten.map Prod.fst).Nodup := ((hfl.map Prod.fst).nodup_iff).mpr hgn
  have hcl : combineParts l = l.flatten := combineParts_eq_flatten l hln
  have hcg : runAnalyses env = (gatheredParts env).flatten :=
    combineParts_eq_flatten _ hgn
  refine ⟨?_, ?_, ?_, ?_, hgn⟩
  · intro k
    rw [hcl, hcg]
    exact lookup_perm hfl hln k
  · intro a ha hen
    rw [hcg, flatten_gathered]
    exact lookup_pairs_mem _ _ a (List.mem_filter.mpr ⟨ha, hen⟩)
  · intro a _ hen
    rw [hcg, flatten_gathered]
    refine lookup_pairs_not_mem _ _ a ?_
    intro hmem
    have hcontra := (List.mem_filter.mp hmem).2
    rw [hen] at hcontra
    cases hcontra
  · intro k hk
    rw [hcg, flatten_gathered]
    refine lookup_pairs_not_mem _ _ k ?_
    intro hmem
    exact hk (List.mem_filter.mp hmem).1

/-- Concrete environment with all three analyzers enabled. -/
def envC2 : PipelineEnv where
  enabled := fun _ => true
  backend := fun a => Except.ok ("finding in " ++ a)
  synth := Except.ok "summary"

/-- Witness for C2: combining the gathered deltas in reversed completion
order yields the same mapping. -/
theorem merge_independent_of_completion_order_w :
    List.lookup "style" (combineParts (gatheredParts envC2).reverse) =
      List.lookup "style" (runAnalyses envC2) :=
  (merge_independent_of_completion_order envC2 (gatheredParts envC2).reverse
    (List.reverse_perm (gatheredParts envC2))).1 "style"

/-- C3: an analyzer whose backend call raises returns (rather than
propagates) a synthetic result under its own key with exactly one
high-severity issue carrying the failure message and passed = false; the
entries of the other analyzers depend only on their own backends, and the
status reported for the run is "success" regardless. -/
theorem analyzer_failure_isolated (env : PipelineEnv) (a e : String)
    (ha : a ∈ analyzerNames) (hb : env.backend a = Except.error e) :
    analyzeCode a (env.backend a) =
      [(a, { issues := [[("error", e), ("severity", "high")]],
             summary := a ++ " analysis failed", passed := false })]
    ∧ (analyzerResult env a).issues.length = 1
    ∧ (analyzerResult env a).passed = false
    ∧ (∀ iss ∈ (analyzerResult env a).issues,
        List.lookup "severity" iss = some "high" ∧ List.lookup "error" iss = some e)
    ∧ (∀ env' : PipelineEnv, env'.enabled = env.enabled →
        (∀ b, b ≠ a → env'.backend b = env.backend b) →
        ∀ k, k ≠ a → List.lookup k (runAnalyses env') = List.lookup k (runAnalyses env))
    ∧ (∀ maxMB code fe, (runPipeline env maxMB code fe).status = "success") := by
  have hres : analyzerResult env a =
      { issues := [[("error", e), ("severity", "high")]],
        summary := a ++ " analysis failed", passed := false } := by
    unfold analyzerResult
    rw [hb]
  refine ⟨?_, ?_, ?_, ?_, ?_, ?_⟩
  · rw [analyzeCode_pair env a, hres]
  · rw [hres]
    rfl
  · rw [hres]
  · rw [hres]
    intro iss hiss
    simp only [List.mem_singleton] at hiss
    subst hiss
    exact ⟨rfl, rfl⟩
  · intro env' hen hbk k hk
    have hcg' : runAnalyses env' = (gatheredParts env').flatten :=
      combineParts_eq_flatten _ (gathered_keys_nodup env')
    have hcg : runAnalyses env = (gatheredParts env).flatten :=
      combineParts_eq_flatten _ (gathered_keys_nodup env)
    rw [hcg', hcg, flatten_gathered, flatten_gathered, hen]
    refine lookup_pairs_congr (analyzerResult env') (analyzerResult env) a ?_ _ k hk
    intro b hbne
    unfold analyzerResult
    rw [hbk b hbne]
  · intro maxMB code fe
    unfold runPipeline
    dsimp only
    split <;> rfl

/-- Concrete environment where the security backend raises. -/
def envC3 : PipelineEnv where
  enabled := fun _ => true
  backend := fun a => if a = "security" then Except.error "boom" else Except.ok ("ok " ++ a)
  synth := Except.ok "summary"

/-- Witness for C3 at the security analyzer with message "boom". -/
theorem analyzer_failure_isolated_w :
    analyzeCode "security" (envC3.backend "security") =
      [("security", { issues := [[("error", "boom"), ("severity", "high")]],
                      summary := "security analysis failed", passed := false })] :=
  (analyzer_failure_isolated envC3 "security" "boom" (by decide) rfl).1

/-- Bridge between _ingest_code and its validation outcome: the update it
returns is the error-first dict literal overridden by the unpacked state
when a check fails, and the language/results/metadata dict otherwise. -/
theorem ingestCode_validation (maxMB : Nat) (s : CRState) :
    ingestCode maxMB s =
      match ingestValidation maxMB s.code s.file_extension with
      | some msg => CRUpdate.union (errUpdate msg) s.toUpdate
      | none =>
        { language := detectLanguage (pyLower s.file_extension)
          analysis_results := some []
          metadata := some (some
            { file_extension := pyLower s.file_extension
              code_length := s.code.length
              file_size_bytes := pyByteLen s.code }) } := by
  unfold ingestCode ingestValidation
  by_cases h1 : s.code = ""
  · simp [h1]
  · rw [if_neg h1, if_neg h1]
    cases h2 : detectLanguage (pyLower s.file_extension) with
    | none => rfl
    | some lang =>
      dsimp only
      by_cases h3 : pyByteLen s.code > maxMB * 1024 * 1024
      · rw [if_pos h3, if_pos h3]
      · rw [if_neg h3, if_neg h3]

/-- The override bug in shape: applying an error-first dict literal
followed by the unpacked state leaves the error channel at its prior
value, whatever message was written first. -/
theorem error_first_literal_swallowed (s : CRState) (msg : String) :
    (applyUpdate s (CRUpdate.union (errUpdate msg) s.toUpdate)).error = s.error := rfl

/-- Concrete pipeline environment for the validation-failure runs. -/
def envC1 : PipelineEnv where
  enabled := fun _ => true
  backend := fun a => Except.ok ("finding " ++ a)
  synth := Except.ok "review text"

/-- C1: a run whose input fails validation (empty code, unsupported
extension, or oversize code) should set the corresponding error, route
ingesting to errored, run no analyzer and report "Error: " plus the
message. The code takes the matching failure branch (ingestValidation),
but the returned dict literal places **state after the error entry, so
the error channel stays None, the router answers "ok", the analyzers run,
and no error feedback is produced. -/
theorem validation_error_swallowed :
    ingestValidation 10 "" "py" = some "No code provided"
    ∧ ingestValidation 10 "x = 1" "exe" = some "Unsupported file type: exe"
    ∧ ingestValidation 0 "x" "py" = some "File size exceeds the maximum limit of 0MB"
    ∧ (runPipeline envC1 10 "" "py").final.error = none
    ∧ (runPipeline envC1 10 "" "py").ranAnalyses = true
    ∧ (runPipeline envC1 10 "" "py").final.feedback ≠ "Error: No code provided"
    ∧ (runPipeline envC1 10 "x = 1" "exe").final.error = none
    ∧ (runPipeline envC1 10 "x = 1" "exe").ranAnalyses = true
    ∧ (runPipeline envC1 0 "x" "py").final.error = none
    ∧ (runPipeline envC1 0 "x" "py").ranAnalyses = true
    ∧ routeFromIngest (applyUpdate (initState "" "py") (ingestCode 10 (initState "" "py"))) = "ok"
    ∧ (runPipeline envC1 10 "x = 1" "py").final.error = none
    ∧ (runPipeline envC1 10 "x = 1" "py").ranAnalyses = true := by
  decide

/-- Helper: the UTF-8 byte length of n copies of a one-byte character. -/
theorem foldl_utf8_replicate (c : Char) (hc : c.utf8Size = 1) :
    ∀ (n k : Nat), List.foldl (fun m ch => m + ch.utf8Size) k (List.replicate n c) = k + n := by
  intro n
  induction n with
  | zero => intro k; simp
  | succ m ih =>
    intro k
    simp only [List.replicate_succ, List.foldl, hc]
    rw [ih (k + 1)]
    omega

/-- Byte length of a replicated ASCII character. -/
theorem pyByteLen_replicate_a (n : Nat) : pyByteLen (⟨List.replicate n 'a'⟩ : String) = n := by
  unfold pyByteLen
  rw [foldl_utf8_replicate 'a' (by decide) n 0]
  omega

/-- A string of exactly one configured megabyte of bytes. -/
def megaA : String := ⟨List.replicate 1048576 'a'⟩

/-- A string of one configured megabyte of bytes plus one byte. -/
def megaA1 : String := ⟨List.replicate 1048577 'a'⟩

/-- C5: the unit-size check is inclusive at the boundary. A code string of
exactly max_file_size_mb * 1024 * 1024 bytes passes validation with no
size error, one byte more takes the size-error branch with the size-limit
message; the per-file batch check behaves the same way: an at-limit file
is never skipped for size, a limit-plus-one file is skipped with the
size-limit reason. -/
theorem size_boundary_inclusive (maxMB : Nat) (fe codeAt codeOver : String)
    (hAt : pyByteLen codeAt = maxMB * 1024 * 1024)
    (hOver : pyByteLen codeOver = maxMB * 1024 * 1024 + 1)
    (hcode : codeAt ≠ "") (hcode2 : codeOver ≠ "")
    (hfe : (detectLanguage (pyLower fe)).isSome = true) :
    ingestValidation maxMB codeAt fe = none
    ∧ ingestValidation maxMB codeOver fe =
        some ("File size exceeds the maximum limit of " ++ toString maxMB ++ "MB")
    ∧ (∀ (α : Type) (f : BatchFile α) (c : String), f.read = Except.ok c →
        pyByteLen c = maxMB * 1024 * 1024 → pyStripS c ≠ "" →
        (processFile maxMB f).reason = none)
    ∧ (∀ (α : Type) (f : BatchFile α) (c : String), f.read = Except.ok c →
        pyByteLen c = maxMB * 1024 * 1024 + 1 → pyStripS c ≠ "" →
        processFile maxMB f =
          { path := f.path, status := "skipped", reason := some (oversizeReason maxMB) }) := by
  obtain ⟨lang, hlang⟩ := Option.isSome_iff_exists.mp hfe
  refine ⟨?_, ?_, ?_, ?_⟩
  · unfold ingestValidation
    rw [if_neg hcode, hlang, if_neg (by omega)]
  · unfold ingestValidation
    rw [if_neg hcode2, hlang, if_pos (by omega)]
  · intro α f c hread hlen hne
    unfold processFile
    rw [hread]
    dsimp only
    rw [if_neg hne, if_neg (by omega : ¬ pyByteLen c > maxMB * 1024 * 1024)]
    cases f.pipeline c <;> rfl
  · intro α f c hread hlen hne
    unfold processFile
    rw [hread]
    dsimp only
    rw [if_neg hne, if_pos (by omega : pyByteLen c > maxMB * 1024 * 1024)]

/-- Witness for C5 with maxMB = 1: megaA (1048576 bytes) passes the unit
validation, megaA1 (1048577 bytes) takes the size-error branch. -/
theorem size_boundary_inclusive_w :
    ingestValidation 1 megaA "py" = none
    ∧ ingestValidation 1 megaA1 "py" =
        some ("File size exceeds the maximum limit of " ++ toString 1 ++ "MB") := by
  have hlenA : megaA.data.length = 1048576 := List.length_replicate 1048576 'a'
  have hlenB : megaA1.data.length = 1048577 := List.length_replicate 1048577 'a'
  have hne1 : megaA ≠ "" := by
    intro h
    have h2 : megaA.data.length = ("" : String).data.length := by rw [h]
    have h3 : (("" : String).data.length) = 0 := rfl
    rw [hlenA, h3] at h2
    exact absurd h2 (by decide)
  have hne2 : megaA1 ≠ "" := by
    intro h
    have h2 : megaA1.data.length = ("" : String).data.length := by rw [h]
    have h3 : (("" : String).data.length) = 0 := rfl
    rw [hlenB, h3] at h2
    exact absurd h2 (by decide)
  have hA : pyByteLen megaA = 1 * 1024 * 1024 := by
    unfold megaA
    rw [pyByteLen_replicate_a]
  have hB : pyByteLen megaA1 = 1 * 1024 * 1024 + 1 := by
    unfold megaA1
    rw [pyByteLen_replicate_a]
  have h := size_boundary_inclusive 1 "py" megaA megaA1 hA hB hne1 hne2 rfl
  exact ⟨h.1, h.2.1⟩

/-- Helper for C6: when every remaining attempt raises, the loop ends with
the aggregated error carrying the message of the last attempted branch. -/
theorem downloadLoop_all_raise (attempt : String → AttemptOutcome) (owner repo : String)
    (errOf : String → String) :
    ∀ (init : List String) (lb : String) (acc : Option String),
      (∀ br ∈ init ++ [lb], attempt br = AttemptOutcome.raises (errOf br)) →
      downloadLoop attempt owner repo (init ++ [lb]) acc =
        Except.error (downloadFailMsg owner repo (some (errOf lb))) := by
  intro init
  induction init with
  | nil =>
    intro lb acc h
    have hlb := h lb (by simp)
    simp [downloadLoop, hlb]
  | cons b bs ih =>
    intro lb acc h
    have hb := h b (by simp)
    simp only [List.cons_append]
    simp only [downloadLoop, hb]
    exact ih lb (some (errOf b)) (fun br hbr => h br (List.mem_cons_of_mem b hbr))

/-- C6: with no explicit branch the download attempts "main" then
"master"; an explicit branch is attempted first; the first 200 response is
returned; and when every attempt raises, the call raises one aggregated
ValueError whose message references the failure of the last attempted
branch (for the default order, "master"). -/
theorem branch_fallback_order (attempt : String → AttemptOutcome) (owner repo body e1 : String)
    (errOf : String → String) (p : Option String) :
    branchCandidates none = ["main", "master"]
    ∧ (∀ b : String, (branchCandidates (some b)).head? = some b)
    ∧ (attempt "main" = AttemptOutcome.ok body →
        downloadRepoZip attempt owner repo none = Except.ok body)
    ∧ (attempt "main" = AttemptOutcome.raises e1 →
        attempt "master" = AttemptOutcome.ok body →
        downloadRepoZip attempt owner repo none = Except.ok body)
    ∧ (∀ (init : List String) (lb : String),
        branchCandidates p = init ++ [lb] →
        (∀ br ∈ branchCandidates p, attempt br = AttemptOutcome.raises (errOf br)) →
        downloadRepoZip attempt owner repo p =
          Except.error (downloadFailMsg owner repo (some (errOf lb))))
    ∧ (branchCandidates none).getLast? = some "master" := by
  refine ⟨by decide, ?_, ?_, ?_, ?_, by decide⟩
  · intro b
    by_cases hm : b = "main"
    · subst hm; rfl
    · by_cases hM : b = "master"
      · subst hM; rfl
      · have hmain : "main" ∉ [b] := by
          intro hh
          exact hm (List.mem_singleton.mp hh).symm
        have hmaster : "master" ∉ [b] ++ ["main"] := by
          intro hh
          cases List.mem_append.mp hh with
          | inl h1 => exact hM (List.mem_singleton.mp h1).symm
          | inr h1 => exact absurd (List.mem_singleton.mp h1) (by decide)
        have e2 : branchCandidates (some b) = [b, "main", "master"] := by
          simp only [branchCandidates, List.foldl]
          rw [if_neg hmain, if_neg hmaster]
          rfl
        rw [e2]
        rfl
  · intro h
    unfold downloadRepoZip
    rw [(by decide : branchCandidates none = ["main", "master"])]
    simp [downloadLoop, h]
  · intro h1 h2
    unfold downloadRepoZip
    rw [(by decide : branchCandidates none = ["main", "master"])]
    simp [downloadLoop, h1, h2]
  · intro init lb hcand hall
    unfold downloadRepoZip
    rw [hcand]
    exact downloadLoop_all_raise attempt owner repo errOf init lb none
      (fun br hbr => hall br (hcand ▸ hbr))

/-- Concrete attempt function for the C6 witness: every branch raises. -/
def attemptC6 : String → AttemptOutcome :=
  fun br => AttemptOutcome.raises ("HTTP 404 for " ++ br)

/-- Witness for C6: with no explicit branch and both default attempts
raising, the aggregated error references the failure of "master". -/
theorem branch_fallback_order_w :
    downloadRepoZip attemptC6 "octo" "demo" none =
      Except.error (downloadFailMsg "octo" "demo" (some ("HTTP 404 for " ++ "master"))) :=
  (branch_fallback_order attemptC6 "octo" "demo" "" ""
    (fun br => "HTTP 404 for " ++ br) none).2.2.2.2.1 ["main"] "master"
    (by decide) (by decide)

/-- A successful batch call returns exactly the assembled analysis of the
resolved branch and subdirectory. -/
theorem analyzeRepository_ok {α : Type} (env : RepoEnv α) (owner repo : String)
    (ub us : Option String) (incs : Option (List String)) (mf : Option Nat)
    (ob os : Option String) (maxMB : Nat) (r : RepoAnalysis α)
    (h : analyzeRepository env owner repo ub us incs mf ob os maxMB = Except.ok r) :
    r = assembleAnalysis env owner repo (pyOrStr ob ub) (pyOrStr os us) incs mf maxMB := by
  unfold analyzeRepository at h
  cases hdz : downloadRepoZip env.attempt owner repo (pyOrStr ob ub) with
  | error e => rw [hdz] at h; cases h
  | ok zb =>
    rw [hdz] at h
    by_cases hsub : truthyStr (pyOrStr os us) ∧ ¬ env.subdirExists
    · rw [if_pos hsub] at h; cases h
    · rw [if_neg hsub] at h
      exact (Except.ok.inj h).symm

/-- C10: when the locator carries no branch and no override is supplied,
the returned RepositoryAnalysis reports the literal "(auto)" rather than
the default branch name whose download succeeded; "(auto)" is not even
among the attempted candidates. -/
theorem auto_branch_reported {α : Type} (env : RepoEnv α) (owner repo : String)
    (us : Option String) (incs : Option (List String)) (mf : Option Nat)
    (os : Option String) (maxMB : Nat) (r : RepoAnalysis α)
    (h : analyzeRepository env owner repo none us incs mf none os maxMB = Except.ok r) :
    r.branch = "(auto)"
    ∧ branchCandidates (pyOrStr none none) = ["main", "master"]
    ∧ "(auto)" ∉ branchCandidates (pyOrStr none none) := by
  have hr := analyzeRepository_ok env owner repo none us incs mf none os maxMB r h
  refine ⟨?_, by decide, by decide⟩
  rw [hr]
  rfl

/-- Concrete environment for the C10 witness: both default branches
download fine, the walk is empty. -/
def envC10 : RepoEnv String where
  attempt := fun _ => AttemptOutcome.ok "zipbytes"
  subdirExists := true
  walk := []

/-- The analysis the C10 witness run returns. -/
def rC10 : RepoAnalysis String where
  status := "success"
  repository := "octo/demo"
  branch := "(auto)"
  subdirectory := ""
  files_analyzed := 0
  files_considered := 0
  results := []

/-- Witness for C10: a branchless run reports "(auto)". -/
theorem auto_branch_reported_w : rC10.branch = "(auto)" :=
  (auto_branch_reported envC10 "octo" "demo" none none none none 10 rC10 rfl).1

/-- C4: in a batch run, a file whose read or pipeline call raises yields a
FileResult of status "error" carrying the captured message, while every
other file is processed by the same per-file function unchanged (status
"reviewed" whenever its pipeline returns on acceptable content), and
files_analyzed counts exactly the results of status "reviewed". -/
theorem batch_failure_isolated {α : Type} (maxMB : Nat)
    (pre post : List (BatchFile α)) (f : BatchFile α) (e : String)
    (hfail : f.read = Except.error e ∨
      ∃ c, f.read = Except.ok c ∧ pyStripS c ≠ "" ∧
        pyByteLen c ≤ maxMB * 1024 * 1024 ∧ f.pipeline c = Except.error e) :
    batchResults maxMB (pre ++ f :: post) =
      batchResults maxMB pre ++
        ({ path := f.path, status := "error", error := some e } : FileResult α) ::
          batchResults maxMB post
    ∧ (∀ g ∈ pre ++ post, ∀ (c : String) (r0 : α), g.read = Except.ok c →
        pyStripS c ≠ "" → pyByteLen c ≤ maxMB * 1024 * 1024 → g.pipeline c = Except.ok r0 →
        processFile maxMB g = { path := g.path, status := "reviewed", result := some r0 })
    ∧ countReviewed (batchResults maxMB (pre ++ f :: post)) =
        countReviewed (batchResults maxMB pre) + countReviewed (batchResults maxMB post)
    ∧ (∀ files : List (BatchFile α),
        countReviewed (batchResults maxMB files) =
          ((batchResults maxMB files).filter (fun x => x.status == "reviewed")).length) := by
  have hpf : processFile maxMB f = { path := f.path, status := "error", error := some e } := by
    rcases hfail with hre | ⟨c, hread, hne, hsize, hpipe⟩
    · unfold processFile
      rw [hre]
    · unfold processFile
      rw [hread]
      dsimp only
      rw [if_neg hne, if_neg (by omega : ¬ pyByteLen c > maxMB * 1024 * 1024), hpipe]
  have hc1 : batchResults maxMB (pre ++ f :: post) =
      batchResults maxMB pre ++
        ({ path := f.path, status := "error", error := some e } : FileResult α) ::
          batchResults maxMB post := by
    unfold batchResults
    rw [List.map_append, List.map_cons, hpf]
  refine ⟨hc1, ?_, ?_, fun files => rfl⟩
  · intro g _ c r0 h1 h2 h3 h4
    unfold processFile
    rw [h1]
    dsimp only
    rw [if_neg h2, if_neg (by omega : ¬ pyByteLen c > maxMB * 1024 * 1024), h4]
  · rw [hc1]
    unfold countReviewed
    rw [List.filter_append, List.filter_cons]
    simp only [List.length_append]
    have hfalse : (({ path := f.path, status := "error", error := some e } :
        FileResult α).status == "reviewed") = false := rfl
    rw [hfalse]
    simp

/-- First file of the C4 witness batch: reviewed normally. -/
def fileOkA : BatchFile String where
  path := "a.py"
  read := Except.ok "print(1)"
  pipeline := fun _ => Except.ok "review-a"

/-- Second file of the C4 witness batch: its pipeline call raises. -/
def fileBad : BatchFile String where
  path := "b.py"
  read := Except.ok "print(2)"
  pipeline := fun _ => Except.error "pipeline exploded"

/-- Third file of the C4 witness batch: reviewed normally. -/
def fileOkC : BatchFile String where
  path := "c.py"
  read := Except.ok "print(3)"
  pipeline := fun _ => Except.ok "review-c"

/-- Witness for C4: in the three-file batch where the middle pipeline call
raises, the result list splits around the status-"error" entry. -/
theorem batch_failure_isolated_w :
    batchResults 10 [fileOkA, fileBad, fileOkC] =
      batchResults 10 [fileOkA] ++
        ({ path := fileBad.path, status := "error", error := some "pipeline exploded" } :
          FileResult String) :: batchResults 10 [fileOkC] :=
  (batch_failure_isolated 10 [fileOkA] [fileOkC] fileBad "pipeline exploded"
    (Or.inr ⟨"print(2)", rfl, by decide, by decide, rfl⟩)).1

/-- Invariant of the selection loop below the cap: the loop returns the
accumulator followed by the next eligible files up to the remaining
budget. The post-append cap test makes the budget max(m,1) when the
accumulator is empty, which the hypothesis rules out reaching 0. -/
theorem selectGo_inv {α : Type} (incs : List String) (m : Nat) :
    ∀ (walk acc : List (WalkEntry α)), acc.length < m →
      selectGo incs m walk acc =
        acc ++ (walk.filter (extEligible incs)).take (m - acc.length) := by
  intro walk
  induction walk with
  | nil =>
    intro acc _
    simp [selectGo]
  | cons w rest ih =>
    intro acc hacc
    by_cases he : extEligible incs w
    · rw [selectGo, if_pos he]
      dsimp only
      by_cases hstop : m ≤ (acc ++ [w]).length
      · rw [if_pos hstop]
        have hm1 : m - acc.length = 1 := by
          simp only [List.length_append, List.length_singleton] at hstop
          omega
        rw [List.filter_cons_of_pos he, hm1]
        rfl
      · rw [if_neg hstop]
        have hlt : (acc ++ [w]).length < m := by omega
        rw [ih (acc ++ [w]) hlt]
        obtain ⟨k, hk⟩ : ∃ k, m - acc.length = k + 1 := ⟨m - acc.length - 1, by omega⟩
        have hk2 : m - (acc ++ [w]).length = k := by
          simp only [List.length_append, List.length_singleton]
          omega
        rw [List.filter_cons_of_pos he, hk, hk2, List.take_succ_cons, List.append_assoc]
        rfl
    · rw [selectGo, if_neg he]
      rw [ih acc hacc, List.filter_cons_of_neg he]

/-- For a positive cap, _select_files returns the first max_files eligible
files in walk order. -/
theorem selectFiles_take {α : Type} (walk : List (WalkEntry α)) (incs : List String)
    (m : Nat) (hm : 1 ≤ m) :
    selectFiles walk incs m = (walk.filter (extEligible incs)).take m := by
  unfold selectFiles
  rw [selectGo_inv incs m walk [] (by simpa using hm)]
  simp

/-- A positive caller-supplied cap is the effective cap. -/
theorem effectiveMaxFiles_pos (m : Nat) (hm : 1 ≤ m) : effectiveMaxFiles (some m) = m := by
  cases m with
  | zero => omega
  | succ k => rfl

/-- files_analyzed never exceeds the number of results. -/
theorem countReviewed_le {α : Type} (rs : List (FileResult α)) : countReviewed rs ≤ rs.length :=
  List.length_filter_le _ rs

/-- C8 (amended): for a caller-supplied max_files of at least 1, file
selection stops at the cap, selected files are the first eligible files in
walk order, files_considered is the number of selected files,
files_analyzed ≤ files_considered ≤ max_files, and with at least max_files
eligible files exactly max_files results are produced. (A falsy
max_files of 0 is replaced by the default 20 before selection.) -/
theorem selection_cap {α : Type} (env : RepoEnv α) (owner repo : String)
    (ub us : Option String) (incs : Option (List String)) (m : Nat) (hm : 1 ≤ m)
    (ob os : Option String) (maxMB : Nat) (r : RepoAnalysis α)
    (h : analyzeRepository env owner repo ub us incs (some m) ob os maxMB = Except.ok r) :
    selectFiles env.walk (effectiveIncludeExts incs) m =
      (env.walk.filter (extEligible (effectiveIncludeExts incs))).take m
    ∧ r.files_considered = (selectFiles env.walk (effectiveIncludeExts incs) m).length
    ∧ r.files_analyzed ≤ r.files_considered
    ∧ r.files_considered ≤ m
    ∧ (m ≤ (env.walk.filter (extEligible (effectiveIncludeExts incs))).length →
        r.files_considered = m)
    ∧ r.results.length = r.files_considered := by
  have hr := analyzeRepository_ok env owner repo ub us incs (some m) ob os maxMB r h
  have hmf := effectiveMaxFiles_pos m hm
  have hsel := selectFiles_take env.walk (effectiveIncludeExts incs) m hm
  subst hr
  refine ⟨hsel, ?_, ?_, ?_, ?_, ?_⟩
  · unfold assembleAnalysis
    rw [hmf]
  · unfold assembleAnalysis
    dsimp only
    rw [hmf]
    calc countReviewed (batchResults maxMB
          ((selectFiles env.walk (effectiveIncludeExts incs) m).map WalkEntry.file))
        ≤ (batchResults maxMB
            ((selectFiles env.walk (effectiveIncludeExts incs) m).map WalkEntry.file)).length :=
          countReviewed_le _
      _ = (selectFiles env.walk (effectiveIncludeExts incs) m).length := by
          unfold batchResults
          rw [List.length_map, List.length_map]
  · unfold assembleAnalysis
    dsimp only
    rw [hmf, hsel, List.length_take]
    exact Nat.min_le_left _ _
  · intro helig
    unfold assembleAnalysis
    dsimp only
    rw [hmf, hsel, List.length_take]
    exact Nat.min_eq_left helig
  · unfold assembleAnalysis
    dsimp only
    rw [hmf]
    unfold batchResults
    rw [List.length_map, List.length_map]

/-- One eligible Python file for the C8 runs. -/
def wPyFile : WalkEntry String where
  ext := ".py"
  file := { path := "a.py", read := Except.ok "print(1)", pipeline := fun _ => Except.ok "review-a" }

/-- Concrete environment with one eligible file for C8. -/
def envC8 : RepoEnv String where
  attempt := fun _ => AttemptOutcome.ok "zipbytes"
  subdirExists := true
  walk := [wPyFile]

/-- Counterexample to C8 as stated: with caller-supplied max_files = 0 and
one eligible file, the run selects that file (Python `max_files or 20`
replaces the falsy 0 with 20), so files_considered = 1 violates
files_considered ≤ max_files = 0. -/
theorem selection_cap_zero_cex :
    (analyzeRepository envC8 "octo" "demo" none none none (some 0) none none 10).map
        (fun r => r.files_considered) = Except.ok 1
    ∧ ¬ (1 : Nat) ≤ 0 :=
  ⟨rfl, by decide⟩

/-- Witness for C8 (amended) with max_files = 1 over the one-file walk. -/
theorem selection_cap_w :
    selectFiles envC8.walk (effectiveIncludeExts none) 1 =
      (envC8.walk.filter (extEligible (effectiveIncludeExts none))).take 1 :=
  (selection_cap envC8 "octo" "demo" none none none 1 (by decide) none none 10
    (assembleAnalysis envC8 "octo" "demo" none none none (some 1) 10) rfl).1

/-- Selection is driven only by the lower-cased allow-list: pointwise equal
eligibility gives equal selection loops. -/
theorem selectGo_congr {α : Type} (incs1 incs2 : List String) (m : Nat)
    (he : ∀ w : WalkEntry α, extEligible incs1 w = extEligible incs2 w) :
    ∀ (walk acc : List (WalkEntry α)),
      selectGo incs1 m walk acc = selectGo incs2 m walk acc := by
  intro walk
  induction walk with
  | nil => intro acc; rfl
  | cons w rest ih =>
    intro acc
    rw [selectGo, selectGo, he w]
    by_cases hel : extEligible incs2 w
    · rw [if_pos hel, if_pos hel]
      dsimp only
      by_cases hstop : m ≤ (acc ++ [w]).length
      · rw [if_pos hstop, if_pos hstop]
      · rw [if_neg hstop, if_neg hstop, ih]
    · rw [if_neg hel, if_neg hel, ih]

/-- Renaming every walk entry by a case-only change of its extension maps
the selection loop through. -/
theorem selectGo_map {α : Type} (incs : List String) (m : Nat)
    (rel : WalkEntry α → WalkEntry α)
    (hrel : ∀ w, pyLower (rel w).ext = pyLower w.ext) :
    ∀ (walk acc : List (WalkEntry α)),
      selectGo incs m (walk.map rel) (acc.map rel) = (selectGo incs m walk acc).map rel := by
  intro walk
  induction walk with
  | nil => intro acc; rfl
  | cons w rest ih =>
    intro acc
    have hel : extEligible incs (rel w) = extEligible incs w := by
      unfold extEligible
      rw [hrel w]
    rw [List.map_cons, selectGo, selectGo, hel]
    by_cases he : extEligible incs w
    · rw [if_pos he, if_pos he]
      dsimp only
      have hlen : (acc.map rel ++ [rel w]).length = (acc ++ [w]).length := by
        simp
      by_cases hstop : m ≤ (acc ++ [w]).length
      · rw [if_pos (hlen ▸ hstop), if_pos hstop]
        simp
      · rw [if_neg (hlen ▸ hstop), if_neg hstop]
        have hmap : acc.map rel ++ [rel w] = (acc ++ [w]).map rel := by
          simp
        rw [hmap, ih (acc ++ [w])]
    · rw [if_neg he, if_neg he, ih acc]

/-- C9: extension matching is case-insensitive at every entry point. The
language table lookup and the whole validator branch depend only on the
lower-cased extension; the file selector depends only on the lower-cased
allow-list; and lower-case-preserving renamings of the walk extensions
select the same files. -/
theorem extension_matching_case_insensitive :
    (∀ e1 e2 : String, pyLower e1 = pyLower e2 → detectLanguage e1 = detectLanguage e2)
    ∧ (∀ (maxMB : Nat) (code e1 e2 : String), pyLower e1 = pyLower e2 →
        ingestValidation maxMB code e1 = ingestValidation maxMB code e2)
    ∧ (∀ (α : Type) (walk : List (WalkEntry α)) (incs1 incs2 : List String) (m : Nat),
        incs1.map pyLower = incs2.map pyLower →
        selectFiles walk incs1 m = selectFiles walk incs2 m)
    ∧ (∀ (α : Type) (walk : List (WalkEntry α)) (rel : WalkEntry α → WalkEntry α)
          (incs : List String) (m : Nat),
        (∀ w, pyLower (rel w).ext = pyLower w.ext) →
        selectFiles (walk.map rel) incs m = (selectFiles walk incs m).map rel) := by
  refine ⟨?_, ?_, ?_, ?_⟩
  · intro e1 e2 h
    unfold detectLanguage
    rw [h]
  · intro maxMB code e1 e2 h
    unfold ingestValidation
    rw [h]
  · intro α walk incs1 incs2 m h
    have he : ∀ w : WalkEntry α, extEligible incs1 w = extEligible incs2 w := by
      intro w
      unfold extEligible
      rw [h]
    exact selectGo_congr incs1 incs2 m he walk []
  · intro α walk rel incs m hrel
    unfold selectFiles
    have hmap := selectGo_map incs m rel hrel walk []
    simpa using hmap

/-- Witness for C9: the upper-cased extension "PY" resolves to the same
language as "py". -/
theorem extension_matching_case_insensitive_w :
    detectLanguage "PY" = detectLanguage "py" :=
  extension_matching_case_insensitive.1 "PY" "py" rfl

/-- Boolean prefix test as an existence of a remainder. -/
theorem pfxOf_iff : ∀ (p s : List Char), p.isPrefixOf s = true ↔ ∃ t, s = p ++ t := by
  intro p
  induction p with
  | nil =>
    intro s
    constructor
    · intro _
      exact ⟨s, rfl⟩
    · intro _
      cases s <;> rfl
  | cons a as ih =>
    intro s
    cases s with
    | nil =>
      constructor
      · intro h
        simp [List.isPrefixOf] at h
      · rintro ⟨t, ht⟩
        exact absurd ht (by simp)
    | cons b bs =>
      constructor
      · intro h
        have h2 : (a == b) = true ∧ as.isPrefixOf bs = true := by
          simpa [List.isPrefixOf, Bool.and_eq_true] using h
        have hab : a = b := beq_iff_eq.mp h2.1
        subst hab
        obtain ⟨t, ht⟩ := (ih bs).mp h2.2
        exact ⟨t, by rw [List.cons_append, ht]⟩
      · rintro ⟨t, ht⟩
        rw [List.cons_append] at ht
        injection ht with h1 h2
        subst h1
        simp [List.isPrefixOf, (ih bs).mpr ⟨t, h2⟩]

/-- A text free of the pattern is a fixed point of the replace worker, for
any fuel. -/
theorem replaceF_id (p r : List Char) :
    ∀ (fuel : Nat) (s : List Char), containsPat p s = false → pyReplaceF p r fuel s = s := by
  intro fuel
  induction fuel with
  | zero =>
    intro s _
    cases s <;> rfl
  | succ n ih =>
    intro s h
    cases s with
    | nil => rfl
    | cons c cs =>
      have h2 : p.isPrefixOf (c :: cs) = false ∧ containsPat p cs = false := by
        simpa [containsPat, Bool.or_eq_false_iff] using h
      rw [pyReplaceF, if_neg]
      · rw [ih cs h2.2]
      · intro hc
        rw [h2.1] at hc
        exact Bool.noConfusion hc.2

/-- A text free of the pattern is a fixed point of pyReplace. -/
theorem replace_id (p r s : List Char) (h : containsPat p s = false) :
    pyReplace p r s = s :=
  replaceF_id p r s.length s h

/-- Occurrence of a non-empty pattern as an explicit decomposition. -/
theorem containsPat_iff (p : List Char) (hp : p ≠ []) :
    ∀ s, containsPat p s = true ↔ ∃ u t, s = u ++ (p ++ t) := by
  intro s
  induction s with
  | nil =>
    constructor
    · intro h
      exact Bool.noConfusion h
    · rintro ⟨u, t, ht⟩
      rw [eq_comm, List.append_eq_nil, List.append_eq_nil] at ht
      exact absurd ht.2.1 hp
  | cons c cs ih =>
    constructor
    · intro h
      have h2 : p.isPrefixOf (c :: cs) = true ∨ containsPat p cs = true := by
        simpa [containsPat, Bool.or_eq_true] using h
      cases h2 with
      | inl h1 =>
        obtain ⟨t, ht⟩ := (pfxOf_iff p (c :: cs)).mp h1
        exact ⟨[], t, by simpa using ht⟩
      | inr h1 =>
        obtain ⟨u, t, ht⟩ := ih.mp h1
        exact ⟨c :: u, t, by simp [ht]⟩
    · rintro ⟨u, t, ht⟩
      cases u with
      | nil =>
        simp only [List.nil_append] at ht
        have h1 : p.isPrefixOf (c :: cs) = true := (pfxOf_iff p (c :: cs)).mpr ⟨t, ht⟩
        simp [containsPat, h1]
      | cons d ds =>
        simp only [List.cons_append] at ht
        injection ht with h1 h2
        have h3 := ih.mpr ⟨ds, t, h2⟩
        simp [containsPat, h3]

/-- An occurrence inside a contiguous segment is an occurrence in the
whole text. -/
theorem containsPat_seg (p t s : List Char) (hp : p ≠ [])
    (h1 : containsPat p t = true) (h2 : ∃ u v, s = u ++ (t ++ v)) :
    containsPat p s = true := by
  obtain ⟨u, v, hs⟩ := h2
  obtain ⟨x, y, hx⟩ := (containsPat_iff p hp t).mp h1
  refine (containsPat_iff p hp s).mpr ⟨u ++ x, y ++ v, ?_⟩
  subst hs
  subst hx
  simp [List.append_assoc]

/-- Every list splits as whitespace followed by its dropWhile remainder. -/
theorem dropWhile_sfx (w : Char → Bool) : ∀ l : List Char, ∃ u, l = u ++ l.dropWhile w := by
  intro l
  induction l with
  | nil => exact ⟨[], rfl⟩
  | cons c cs ih =>
    cases hc : w c with
    | true =>
      obtain ⟨u, hu⟩ := ih
      refine ⟨c :: u, ?_⟩
      simp only [List.dropWhile, hc, List.cons_append]
      exact congrArg (List.cons c) hu
    | false =>
      refine ⟨[], ?_⟩
      simp [List.dropWhile, hc]

/-- The stripped text is a contiguous segment of the original. -/
theorem strip_seg (l : List Char) : ∃ u v, l = u ++ (pyStrip l ++ v) := by
  obtain ⟨u, hu⟩ := dropWhile_sfx pyIsSpace l
  obtain ⟨u2, hu2⟩ := dropWhile_sfx pyIsSpace (l.dropWhile pyIsSpace).reverse
  refine ⟨u, u2.reverse, ?_⟩
  unfold pyStrip dropTrail
  conv_lhs => rw [hu]
  congr 1
  have h3 := congrArg List.reverse hu2
  simpa [List.reverse_append] using h3

/-- dropWhile never lengthens a list. -/
theorem dw_length_le (w : Char → Bool) :
    ∀ l : List Char, (l.dropWhile w).length ≤ l.length := by
  intro l
  induction l with
  | nil => exact Nat.le_refl 0
  | cons c cs ih =>
    cases hc : w c with
    | true =>
      simp only [List.dropWhile, hc, List.length_cons]
      omega
    | false =>
      simp [List.dropWhile, hc]

/-- dropWhile is idempotent. -/
theorem dw_dw (w : Char → Bool) : ∀ l : List Char, (l.dropWhile w).dropWhile w = l.dropWhile w := by
  intro l
  induction l with
  | nil => rfl
  | cons c cs ih =>
    cases hc : w c with
    | true => simp [List.dropWhile, hc, ih]
    | false => simp [List.dropWhile, hc]

/-- dropTrail is idempotent. -/
theorem dropTrail_idem (x : List Char) : dropTrail (dropTrail x) = dropTrail x := by
  unfold dropTrail
  rw [List.reverse_reverse, dw_dw]

/-- Model of str.strip is idempotent. -/
theorem strip_idem (l : List Char) : pyStrip (pyStrip l) = pyStrip l := by
  unfold pyStrip
  have hS : (dropTrail (l.dropWhile pyIsSpace)).dropWhile pyIsSpace
      = dropTrail (l.dropWhile pyIsSpace) := by
    cases hsplit : dropTrail (l.dropWhile pyIsSpace) with
    | nil => rfl
    | cons c s2 =>
      have hrest : ∃ rest, l.dropWhile pyIsSpace = c :: rest := by
        obtain ⟨u2, hu2⟩ := dropWhile_sfx pyIsSpace (l.dropWhile pyIsSpace).reverse
        have hAeq : l.dropWhile pyIsSpace
            = dropTrail (l.dropWhile pyIsSpace) ++ u2.reverse := by
          unfold dropTrail
          have h3 := congrArg List.reverse hu2
          simpa [List.reverse_append] using h3
        rw [hsplit] at hAeq
        exact ⟨s2 ++ u2.reverse, by simpa using hAeq⟩
      obtain ⟨rest, hrest⟩ := hrest
      have hwc : pyIsSpace c = false := by
        cases hc : pyIsSpace c with
        | false => rfl
        | true =>
          have hfix := dw_dw pyIsSpace l
          rw [hrest] at hfix
          simp only [List.dropWhile, hc] at hfix
          have hlen := congrArg List.length hfix
          have hle := dw_length_le pyIsSpace rest
          simp only [List.length_cons] at hlen
          omega
      simp [List.dropWhile, hwc]
  rw [hS, dropTrail_idem]

/-- Freedom from a non-empty pattern survives stripping. -/
theorem containsPat_strip_false (p s : List Char) (hp : p ≠ [])
    (h : containsPat p s = false) : containsPat p (pyStrip s) = false := by
  cases hc : containsPat p (pyStrip s) with
  | false => rfl
  | true =>
    have h2 := containsPat_seg p (pyStrip s) s hp hc (strip_seg s)
    rw [h] at h2
    exact Bool.noConfusion h2

/-- On token-free text the six replaces are the identity, so the cleanup
core reduces to the final strip. -/
theorem cleanCore_token_free (s : List Char) (h : tokenFree s = true) :
    cleanCore s = pyStrip s := by
  have hall := List.all_eq_true.mp h
  have h1 : containsPat tagSOpen s = false := by
    simpa using hall tagSOpen (by simp [cleanTokens])
  have h2 : containsPat tagSClose s = false := by
    simpa using hall tagSClose (by simp [cleanTokens])
  have h3 : containsPat tagOutOpen s = false := by
    simpa using hall tagOutOpen (by simp [cleanTokens])
  have h4 : containsPat tagOutClose s = false := by
    simpa using hall tagOutClose (by simp [cleanTokens])
  have h5 : containsPat bq1 s = false := by
    simpa using hall bq1 (by simp [cleanTokens])
  have h6 : containsPat bq2 s = false := by
    simpa using hall bq2 (by simp [cleanTokens])
  unfold cleanCore
  rw [replace_id _ _ _ h1, replace_id _ _ _ h2, replace_id _ _ _ h3,
    replace_id _ _ _ h4, replace_id _ _ _ h5, replace_id _ _ _ h6]

/-- Token freedom survives stripping. -/
theorem tokenFree_strip (s : List Char) (h : tokenFree s = true) :
    tokenFree (pyStrip s) = true := by
  have hall := List.all_eq_true.mp h
  refine List.all_eq_true.mpr ?_
  intro p hpmem
  have hp : p ≠ [] := by
    fin_cases hpmem <;> decide
  have hfree : containsPat p s = false := by
    simpa using hall p hpmem
  simpa using containsPat_strip_false p s hp hfree

/-- C7 (amended): the response cleanup is idempotent on text containing
none of the six delimiter tokens it rewrites; on such text it is exactly a
strip. In general it is not idempotent, because removing a token can
splice a new token together (see the counterexample). -/
theorem clean_idempotent_on_token_free (s : String) (h : tokenFree s.data = true) :
    cleanLLMResponse (cleanLLMResponse s) = cleanLLMResponse s := by
  by_cases hs : s = ""
  · subst hs
    rfl
  · have hc : cleanLLMResponse s = ⟨pyStrip s.data⟩ := by
      unfold cleanLLMResponse
      rw [if_neg hs, cleanCore_token_free s.data h]
    by_cases ht : pyStrip s.data = []
    · rw [hc, ht]
      rfl
    · rw [hc]
      unfold cleanLLMResponse
      by_cases hEmpty : (⟨pyStrip s.data⟩ : String) = ""
      · exact absurd (congrArg String.data hEmpty) ht
      · rw [if_neg hEmpty]
        show (⟨cleanCore (pyStrip s.data)⟩ : String) = ⟨pyStrip s.data⟩
        rw [cleanCore_token_free (pyStrip s.data) (tokenFree_strip s.data h), strip_idem]

/-- Counterexample to C7 as stated: removing "</s>" from "<</s>s>" splices
together a fresh "<s>", which the second pass removes, so the cleanup is
not idempotent on every string. -/
theorem clean_not_idempotent :
    cleanLLMResponse (cleanLLMResponse "<</s>s>") ≠ cleanLLMResponse "<</s>s>"
    ∧ cleanLLMResponse "<</s>s>" = "<s>"
    ∧ cleanLLMResponse (cleanLLMResponse "<</s>s>") = "" := by
  decide

/-- Witness for C7 (amended) on a token-free string. -/
theorem clean_idempotent_on_token_free_w :
    cleanLLMResponse (cleanLLMResponse "hello world") = cleanLLMResponse "hello world" :=
  clean_idempotent_on_token_free "hello world" (by decide)
